import Mathlib

/-!
# Verification of the Md_Collab file-store routes

A shallow embedding of `src/backend/routes/files.js`: the file store with its
append-only version ledger, the role/ownership access policy, and the cascade
deletion of dependent Edit and Notification records.  Routes become pure
functions from a `Store` (plus the authenticated `Principal` and request data)
to a result paired with the successor `Store`.  Store-level failures of the
delete route's persistence calls are made explicit through a `DeleteSchedule`
of success flags, mirroring which awaited operation rejects.
-/

/-- Element of a file's `versions` array: exactly the record pushed by the
routes, `\x7b content, updatedBy \x7d`. -/
structure Version where
  content : String
  updatedBy : Nat
deriving DecidableEq

/-- A `File` document.  `status` is the raw string the code stores
(the schema enumerates "draft" and "approved").  `updatedAt` is the
timestamp mongoose refreshes on every save; listings sort by it. -/
structure FileRec where
  id : Nat
  name : String
  content : String
  author : Nat
  status : String
  versions : List Version
  updatedAt : Nat
deriving DecidableEq

/-- An `Edit` document, referencing a file by id through its `file` field. -/
structure EditRec where
  id : Nat
  file : Nat
deriving DecidableEq

/-- A `Notification` document, referencing a file through its `fileId` field. -/
structure NotificationRec where
  id : Nat
  fileId : Nat
deriving DecidableEq

/-- The persistent store: the three collections the routes touch. -/
structure Store where
  files : List FileRec
  edits : List EditRec
  notifs : List NotificationRec
deriving DecidableEq

/-- Roles carried by authenticated principals. -/
inductive Role
  | admin
  | editor
  | viewer
deriving DecidableEq

/-- The authenticated caller: `req.user._id` and `req.user.role`. -/
structure Principal where
  id : Nat
  role : Role
deriving DecidableEq

/-- Error responses the routes produce, tagged by kind.  `validationError`
is the typed validation failure named by the specification; the routes
reply with `storeError` (HTTP 500) from their catch-all handlers,
`notFound` (404) and `forbidden` (403) from explicit checks. -/
inductive ApiError
  | notFound (msg : String)
  | forbidden (msg : String)
  | validationError (msg : String)
  | storeError (msg : String)
deriving DecidableEq

deriving instance DecidableEq for Except

/-- Modelled from the spec: the `authorize` middleware (imported from
`../middleware/auth.js`, which is outside the shown sources) is the pure
policy gate admitting exactly the principals whose role lies in the
allowed set. -/
def authorize (allowed : List Role) (p : Principal) : Bool :=
  allowed.contains p.role

/-- `File.findById`: the first file in the collection with the given id. -/
def findById (st : Store) (id : Nat) : Option FileRec :=
  st.files.find? (fun f => f.id == id)

/-- `file.save()` on a loaded document: write the mutated document back over
every stored document with the same id. -/
def replaceFile (st : Store) (f : FileRec) : Store :=
  { st with files := st.files.map (fun g => if g.id == f.id then f else g) }

/-- Insert a file in front of the first stored file not newer than it. -/
def insertByUpdatedAt (f : FileRec) : List FileRec → List FileRec
  | [] => [f]
  | g :: gs =>
    if g.updatedAt ≤ f.updatedAt then f :: g :: gs
    else g :: insertByUpdatedAt f gs

/-- The query modifier `.sort(\x7b updatedAt: -1 \x7d)`: order results by
`updatedAt` descending. -/
def sortByUpdatedAtDesc : List FileRec → List FileRec
  | [] => []
  | f :: fs => insertByUpdatedAt f (sortByUpdatedAtDesc fs)

/-- `GET /`: all files with status "approved", most recently updated first. -/
def listApproved (st : Store) : List FileRec :=
  sortByUpdatedAtDesc (st.files.filter (fun f => f.status == "approved"))

/-- `GET /my/files`: all files authored by the caller, any status,
most recently updated first. -/
def listMine (st : Store) (p : Principal) : List FileRec :=
  sortByUpdatedAtDesc (st.files.filter (fun f => f.author == p.id))

/-- `GET /:id`: the file, or 404 if absent.  Read-only. -/
def getFile (st : Store) (id : Nat) : Except ApiError FileRec × Store :=
  match findById st id with
  | none => (.error (.notFound "File not found"), st)
  | some f => (.ok f, st)

/-- `POST /` behind `authorize('editor','admin')`: build a file with
status "approved", author = caller, and a single founding version entry
holding the initial content, then persist it.  `name` and `content` are
`Option` because `req.body` may omit them; a document missing either is
rejected by `file.save()` (modelled from the spec: the File schema, outside
the shown sources, requires both fields), and the route's catch-all turns
that rejection into the generic 500 reply. -/
def createFile (st : Store) (p : Principal) (name content : Option String)
    (newId now : Nat) : Except ApiError FileRec × Store :=
  if authorize [.editor, .admin] p then
    match name, content with
    | some n, some c =>
      let f : FileRec :=
        { id := newId
          name := n
          content := c
          author := p.id
          status := "approved"
          versions := [{ content := c, updatedBy := p.id }]
          updatedAt := now }
      (.ok f, { st with files := st.files ++ [f] })
    | _, _ => (.error (.storeError "Failed to create file"), st)
  else (.error (.forbidden "Access denied"), st)

/-- `PUT /:id` behind `authorize('admin')`: load the file (404 if absent),
push the current content onto `versions` with the caller as `updatedBy`,
then overwrite `content` — no ownership check. -/
def forceUpdate (st : Store) (p : Principal) (id : Nat) (content : String)
    (now : Nat) : Except ApiError FileRec × Store :=
  if authorize [.admin] p then
    match findById st id with
    | none => (.error (.notFound "File not found"), st)
    | some file =>
      let f :=
        { file with
          versions := file.versions ++ [{ content := file.content, updatedBy := p.id }]
          content := content
          updatedAt := now }
      (.ok f, replaceFile st f)
  else (.error (.forbidden "Access denied"), st)

/-- `PUT /:id/save` behind `authorize('editor','admin')`: load the file
(404 if absent); if the caller is neither the author nor an admin, reply
403; otherwise push the current content onto `versions`, overwrite
`content`, and update `name` when a truthy (non-empty) name was sent. -/
def saveFile (st : Store) (p : Principal) (id : Nat) (content : String)
    (name : Option String) (now : Nat) : Except ApiError FileRec × Store :=
  if authorize [.editor, .admin] p then
    match findById st id with
    | none => (.error (.notFound "File not found"), st)
    | some file =>
      if file.author != p.id && p.role != .admin then
        (.error (.forbidden "You can only save your own files"), st)
      else
        let f :=
          { file with
            versions := file.versions ++ [{ content := file.content, updatedBy := p.id }]
            content := content
            name := match name with
              | some n => if n == "" then file.name else n
              | none => file.name
            updatedAt := now }
        (.ok f, replaceFile st f)
  else (.error (.forbidden "Access denied"), st)

/-- Success flags for the three awaited store operations of the delete
route: `Edit.deleteMany`, `Notification.deleteMany`, and
`File.findByIdAndDelete`. -/
structure DeleteSchedule where
  editCleanupOk : Bool
  notifCleanupOk : Bool
  fileDeleteOk : Bool
deriving DecidableEq

/-- `DELETE /:id` behind `authorize('editor','admin')`: load the file (404
if absent); run both `deleteMany` cleanups under `Promise.all` — each one
that succeeds removes every matching dependent, and if either rejects the
route's catch-all replies 500 without reaching `File.findByIdAndDelete`;
otherwise remove the file itself (or reply 500 if that removal rejects). -/
def deleteFile (st : Store) (p : Principal) (id : Nat) (sched : DeleteSchedule) :
    Except ApiError String × Store :=
  if authorize [.editor, .admin] p then
    match findById st id with
    | none => (.error (.notFound "File not found"), st)
    | some _ =>
      let edits1 := if sched.editCleanupOk
        then st.edits.filter (fun e => e.file != id) else st.edits
      let notifs1 := if sched.notifCleanupOk
        then st.notifs.filter (fun nt => nt.fileId != id) else st.notifs
      let st1 : Store := { st with edits := edits1, notifs := notifs1 }
      if sched.editCleanupOk && sched.notifCleanupOk then
        if sched.fileDeleteOk then
          (.ok "File deleted successfully",
            { st1 with files := st1.files.filter (fun f => f.id != id) })
        else (.error (.storeError "Failed to delete file"), st1)
      else (.error (.storeError "Failed to delete file"), st1)
  else (.error (.forbidden "Access denied"), st)

/-- Replay a sequence of saves by one principal on one file id (timestamps
fixed at 0, no rename); `none` as soon as any save fails. -/
def runSaves (p : Principal) (id : Nat) : Store → List String → Option Store
  | st, [] => some st
  | st, c :: cs =>
    match saveFile st p id c none 0 with
    | (.ok _, st1) => runSaves p id st1 cs
    | (.error _, _) => none

/-- The ledger entries a run of saves appends: for successive new contents
`c1 :: cs`, the pre-image of the first save is the current content `c`, and
the later saves continue from `c1`. -/
def preImages (c : String) (actor : Nat) : List String → List Version
  | [] => []
  | c1 :: cs => { content := c, updatedBy := actor } :: preImages c1 actor cs

/-- One route invocation, for statements quantifying over all operations. -/
inductive Op
  | create (p : Principal) (name content : Option String) (newId now : Nat)
  | force (p : Principal) (id : Nat) (content : String) (now : Nat)
  | save (p : Principal) (id : Nat) (content : String) (name : Option String) (now : Nat)
  | getOne (id : Nat)
  | listAll
  | listMy (p : Principal)
  | del (p : Principal) (id : Nat) (sched : DeleteSchedule)

/-- The store an operation leaves behind (reads leave it unchanged). -/
def applyOp (st : Store) : Op → Store
  | .create p name content newId now => (createFile st p name content newId now).2
  | .force p id content now => (forceUpdate st p id content now).2
  | .save p id content name now => (saveFile st p id content name now).2
  | .getOne id => (getFile st id).2
  | .listAll => st
  | .listMy _ => st
  | .del p id sched => (deleteFile st p id sched).2

/-! ## Store lemmas -/

theorem findById_id (st : Store) (id : Nat) (f : FileRec)
    (h : findById st id = some f) : f.id = id := by
  have := List.find?_some h
  simpa using this


theorem find?_replace_other (l : List FileRec) (f : FileRec) (id0 : Nat)
    (hne : f.id ≠ id0) :
    (l.map (fun g => if g.id == f.id then f else g)).find? (fun g => g.id == id0)
      = l.find? (fun g => g.id == id0) := by
  induction l with
  | nil => rfl
  | cons a t ih =>
    rw [List.map_cons]
    by_cases ha : a.id = f.id
    · rw [if_pos (by simpa using ha)]
      rw [List.find?_cons_of_neg _ (by simpa using hne),
          List.find?_cons_of_neg _ (by simp only [ha]; simpa using hne)]
      exact ih
    · rw [if_neg (by simpa using ha)]
      by_cases hb : a.id = id0
      · rw [List.find?_cons_of_pos _ (by simpa using hb),
          List.find?_cons_of_pos _ (by simpa using hb)]
      · rw [List.find?_cons_of_neg _ (by simpa using hb),
          List.find?_cons_of_neg _ (by simpa using hb)]
        exact ih

theorem find?_replace_found (l : List FileRec) (id : Nat) (file f : FileRec)
    (hf : f.id = file.id) (id0 : Nat)
    (hfound : l.find? (fun g => g.id == id) = some file) :
    (l.map (fun g => if g.id == f.id then f else g)).find? (fun g => g.id == id0)
      = if id0 = id then some f else l.find? (fun g => g.id == id0) := by
  have hfile : file.id = id := by simpa using List.find?_some hfound
  induction l with
  | nil => simp at hfound
  | cons a t ih =>
    rw [List.map_cons]
    by_cases ha : a.id = id
    · rw [List.find?_cons_of_pos _ (by simpa using ha)] at hfound
      have hfa : file = a := by
        have h := hfound.symm
        injection h
      have hfid : f.id = id := by rw [hf, hfa, ha]
      rw [if_pos (show (a.id == f.id) = true by rw [hf, hfa]; simp)]
      by_cases h0 : id0 = id
      · have hfi : (f.id == id0) = true := by simp [hfid, h0]
        simp only [List.find?_cons, hfi, if_pos h0]
      · have hfi : (f.id == id0) = false := by
          simp only [hfid]
          simpa using fun h => h0 h.symm
        have hai : (a.id == id0) = false := by
          simp only [ha]
          simpa using fun h => h0 h.symm
        simp only [List.find?_cons, hfi, hai, if_neg h0]
        exact find?_replace_other t f id0 (by omega)
    · rw [List.find?_cons_of_neg _ (by simpa using ha)] at hfound
      have hne2 : (a.id == f.id) = false := by
        simp only [hf, hfile]
        simpa using ha
      rw [if_neg (by simp [hne2])]
      by_cases hb : a.id = id0
      · have hai : (a.id == id0) = true := by simpa using hb
        have h0 : ¬ id0 = id := by omega
        simp only [List.find?_cons, hai, if_neg h0]
      · have hai : (a.id == id0) = false := by simpa using hb
        simp only [List.find?_cons, hai]
        exact ih hfound

theorem findById_replaceFile (st : Store) (id : Nat) (file f : FileRec)
    (hfound : findById st id = some file) (hf : f.id = file.id) (id0 : Nat) :
    findById (replaceFile st f) id0
      = if id0 = id then some f else findById st id0 :=
  find?_replace_found st.files id file f hf id0 hfound

theorem findById_append (st : Store) (f : FileRec) (id0 : Nat) :
    findById { st with files := st.files ++ [f] } id0
      = (findById st id0).or (if f.id == id0 then some f else none) := by
  show (st.files ++ [f]).find? (fun g => g.id == id0) = _
  rw [List.find?_append]
  by_cases h : f.id = id0
  · simp [List.find?_cons, h, findById]
  · simp [List.find?_cons, h, findById]

theorem find?_filter_ne (l : List FileRec) (id id0 : Nat) (hne : id0 ≠ id) :
    (l.filter (fun g => g.id != id)).find? (fun g => g.id == id0)
      = l.find? (fun g => g.id == id0) := by
  induction l with
  | nil => rfl
  | cons a t ih =>
    by_cases ha : a.id = id
    · have h2 : (a.id == id0) = false := by simp; omega
      simp only [List.filter_cons]
      rw [if_neg (by simp [ha])]
      rw [List.find?_cons_of_neg _ (by simp; omega)]
      exact ih
    · simp only [List.filter_cons]
      rw [if_pos (by simpa using ha)]
      by_cases hb : a.id = id0
      · rw [List.find?_cons_of_pos _ (by simpa using hb),
          List.find?_cons_of_pos _ (by simpa using hb)]
      · rw [List.find?_cons_of_neg _ (by simpa using hb),
          List.find?_cons_of_neg _ (by simpa using hb)]
        exact ih

theorem find?_filter_self (l : List FileRec) (id : Nat) :
    (l.filter (fun g => g.id != id)).find? (fun g => g.id == id) = none := by
  rw [List.find?_eq_none]
  intro x hx
  have hmem := List.of_mem_filter hx
  simp at hmem ⊢
  exact hmem

theorem mem_insertByUpdatedAt (f x : FileRec) (l : List FileRec) :
    x ∈ insertByUpdatedAt f l ↔ x = f ∨ x ∈ l := by
  induction l with
  | nil => simp [insertByUpdatedAt]
  | cons g gs ih =>
    by_cases h : g.updatedAt ≤ f.updatedAt
    · simp only [insertByUpdatedAt, if_pos h, List.mem_cons]
    · simp only [insertByUpdatedAt, if_neg h, List.mem_cons, ih]
      tauto

theorem mem_sortByUpdatedAtDesc (x : FileRec) (l : List FileRec) :
    x ∈ sortByUpdatedAtDesc l ↔ x ∈ l := by
  induction l with
  | nil => simp [sortByUpdatedAtDesc]
  | cons f fs ih =>
    simp only [sortByUpdatedAtDesc, mem_insertByUpdatedAt, List.mem_cons, ih]

/-! ## Operation anatomy -/

theorem createFile_anatomy (st : Store) (p : Principal) (name content : Option String)
    (newId now : Nat) :
    (∃ e, createFile st p name content newId now = (.error e, st)) ∨
    (∃ n c, name = some n ∧ content = some c ∧
      createFile st p name content newId now =
        (.ok { id := newId, name := n, content := c, author := p.id,
               status := "approved",
               versions := [{ content := c, updatedBy := p.id }], updatedAt := now },
          { st with files := st.files ++
            [{ id := newId, name := n, content := c, author := p.id,
               status := "approved",
               versions := [{ content := c, updatedBy := p.id }], updatedAt := now }] })) := by
  by_cases hauth : authorize [.editor, .admin] p
  · match name, content with
    | some n, some c =>
      exact .inr ⟨n, c, rfl, rfl, by simp [createFile, hauth]⟩
    | some n, none =>
      exact .inl ⟨.storeError "Failed to create file", by simp [createFile, hauth]⟩
    | none, some c =>
      exact .inl ⟨.storeError "Failed to create file", by simp [createFile, hauth]⟩
    | none, none =>
      exact .inl ⟨.storeError "Failed to create file", by simp [createFile, hauth]⟩
  · exact .inl ⟨.forbidden "Access denied", by simp [createFile, hauth]⟩

theorem saveFile_anatomy (st : Store) (p : Principal) (id : Nat) (c : String)
    (name : Option String) (now : Nat) :
    (∃ e, saveFile st p id c name now = (.error e, st)) ∨
    (∃ file f1, findById st id = some file ∧
      f1 = { file with
        versions := file.versions ++ [{ content := file.content, updatedBy := p.id }]
        content := c
        name := match name with
          | some n => if n == "" then file.name else n
          | none => file.name
        updatedAt := now } ∧
      saveFile st p id c name now = (.ok f1, replaceFile st f1)) := by
  by_cases hauth : authorize [.editor, .admin] p
  · rcases hfind : findById st id with _ | file
    · exact .inl ⟨.notFound "File not found", by simp [saveFile, hauth, hfind]⟩
    · by_cases hown : (file.author != p.id && p.role != .admin) = true
      · exact .inl ⟨.forbidden "You can only save your own files",
          by simp [saveFile, hauth, hfind, hown]⟩
      · exact .inr ⟨file, _, rfl, rfl, by simp [saveFile, hauth, hfind, hown]⟩
  · exact .inl ⟨.forbidden "Access denied", by simp [saveFile, hauth]⟩

theorem forceUpdate_anatomy (st : Store) (p : Principal) (id : Nat) (c : String)
    (now : Nat) :
    (∃ e, forceUpdate st p id c now = (.error e, st)) ∨
    (∃ file f1, findById st id = some file ∧
      f1 = { file with
        versions := file.versions ++ [{ content := file.content, updatedBy := p.id }]
        content := c
        updatedAt := now } ∧
      forceUpdate st p id c now = (.ok f1, replaceFile st f1)) := by
  by_cases hauth : authorize [.admin] p
  · rcases hfind : findById st id with _ | file
    · exact .inl ⟨.notFound "File not found", by simp [forceUpdate, hauth, hfind]⟩
    · exact .inr ⟨file, _, rfl, rfl, by simp [forceUpdate, hauth, hfind]⟩
  · exact .inl ⟨.forbidden "Access denied", by simp [forceUpdate, hauth]⟩

theorem deleteFile_files (st : Store) (p : Principal) (id : Nat)
    (sched : DeleteSchedule) :
    (deleteFile st p id sched).2.files = st.files ∨
    (deleteFile st p id sched).2.files = st.files.filter (fun f => f.id != id) := by
  by_cases hauth : authorize [.editor, .admin] p
  · rcases hfind : findById st id with _ | file
    · exact .inl (by simp [deleteFile, hauth, hfind])
    · by_cases hclean : (sched.editCleanupOk && sched.notifCleanupOk) = true
      · by_cases hdel : sched.fileDeleteOk = true
        · exact .inr (by simp [deleteFile, hauth, hfind, hclean, hdel])
        · exact .inl (by simp [deleteFile, hauth, hfind, hclean, hdel])
      · exact .inl (by simp [deleteFile, hauth, hfind, hclean])
  · exact .inl (by simp [deleteFile, hauth])

/-! ## Ledger growth under repeated saves -/

theorem preImages_length (c : String) (a : Nat) (cs : List String) :
    (preImages c a cs).length = cs.length := by
  induction cs generalizing c with
  | nil => rfl
  | cons c1 cs ih => simp [preImages, ih]

theorem preImages_map_content (c : String) (a : Nat) (cs : List String) :
    (preImages c a cs).map Version.content = (c :: cs).dropLast := by
  induction cs generalizing c with
  | nil => rfl
  | cons c1 cs ih => simp [preImages, ih, List.dropLast_cons₂]

theorem preImages_getElem? (c : String) (a : Nat) (cs : List String) (j : Nat)
    (hj : j < cs.length) :
    ((preImages c a cs)[j]?).map Version.content = (c :: cs)[j]? := by
  induction cs generalizing c j with
  | nil => simp at hj
  | cons c1 cs ih =>
    cases j with
    | zero => simp [preImages]
    | succ j =>
      have hj2 : j < cs.length := by simpa using hj
      simpa [preImages] using ih c1 j hj2

theorem runSaves_spec (p : Principal) (id : Nat) (cs : List String) :
    ∀ (st st2 : Store) (file : FileRec),
    findById st id = some file →
    runSaves p id st cs = some st2 →
    ∃ f2, findById st2 id = some f2 ∧
      f2.versions = file.versions ++ preImages file.content p.id cs ∧
      f2.content = cs.getLastD file.content := by
  induction cs with
  | nil =>
    intro st st2 file hfind hrun
    simp only [runSaves, Option.some_inj] at hrun
    subst hrun
    exact ⟨file, hfind, by simp [preImages], rfl⟩
  | cons c cs ih =>
    intro st st2 file hfind hrun
    rcases saveFile_anatomy st p id c none 0 with ⟨e, he⟩ | ⟨file0, f1, hf0, hshape, heq⟩
    · rw [runSaves, he] at hrun
      simp at hrun
    · rw [runSaves, heq] at hrun
      have hrun2 : runSaves p id (replaceFile st f1) cs = some st2 := hrun
      have hfiles : file0 = file := by
        rw [hfind] at hf0
        exact (Option.some.inj hf0).symm
      rw [hfiles] at hshape
      have hfid : f1.id = file.id := by rw [hshape]
      have hnext : findById (replaceFile st f1) id = some f1 := by
        rw [findById_replaceFile st id file f1 hfind hfid id, if_pos rfl]
      obtain ⟨f2, hfind2, hv2, hc2⟩ := ih (replaceFile st f1) st2 f1 hnext hrun2
      refine ⟨f2, hfind2, ?_, ?_⟩
      · rw [hv2, hshape]
        simp [preImages, List.append_assoc]
      · rw [hc2, hshape]
        cases cs with
        | nil => simp
        | cons d ds =>
          obtain ⟨x, hx⟩ : ∃ x, (d :: ds).getLast? = some x :=
            ⟨(d :: ds).getLast (by simp), List.getLast?_eq_getLast _ _⟩
          simp [hx]

/-! ## Claim theorems -/

/-- C1: for every file created with initial content `c0` and then saved `N`
times with contents `cs = [C1, ..., CN]` (each save succeeding), the file's
`versions` has `N + 1` entries, entry 0 is the founding snapshot with
content `c0`, entry `k` (for `k = 1 .. N`) holds the pre-image `C(k-1)`,
and the current `content` is `CN`. -/
theorem C1_create_then_saves (st0 st1 st2 : Store) (p : Principal)
    (n c0 : String) (newId : Nat) (cs : List String) (f0 : FileRec)
    (hfresh : findById st0 newId = none)
    (hcreate : createFile st0 p (some n) (some c0) newId 0 = (.ok f0, st1))
    (hsaves : runSaves p newId st1 cs = some st2) :
    ∃ f, findById st2 newId = some f ∧
      f.versions.length = cs.length + 1 ∧
      f.versions[0]?.map Version.content = some c0 ∧
      (∀ k, 1 ≤ k → k ≤ cs.length →
        f.versions[k]?.map Version.content = (c0 :: cs)[k - 1]?) ∧
      f.content = cs.getLastD c0 := by
  rcases createFile_anatomy st0 p (some n) (some c0) newId 0 with
    ⟨e, he⟩ | ⟨n1, c1, hn, hc, heq⟩
  · rw [hcreate] at he
    simp at he
  · have hn2 : n1 = n := (Option.some.inj hn).symm
    have hc2 : c1 = c0 := (Option.some.inj hc).symm
    rw [hn2, hc2] at heq
    have hps := hcreate.symm.trans heq
    simp only [Prod.mk.injEq, Except.ok.injEq] at hps
    obtain ⟨hf0, hst1⟩ := hps
    have hfind1 : findById st1 newId
        = some { id := newId, name := n, content := c0, author := p.id,
                 status := "approved",
                 versions := [{ content := c0, updatedBy := p.id }], updatedAt := 0 } := by
      rw [hst1, findById_append, hfresh]
      simp
    obtain ⟨f, hfind2, hv, hcnt⟩ := runSaves_spec p newId cs st1 st2 _ hfind1 hsaves
    simp only at hv hcnt
    refine ⟨f, hfind2, ?_, ?_, ?_, hcnt⟩
    · rw [hv]
      simp [preImages_length]
    · rw [hv]
      simp
    · intro k hk1 hk2
      obtain ⟨j, rfl⟩ : ∃ j, k = j + 1 := ⟨k - 1, by omega⟩
      rw [hv]
      have hstep : ([{ content := c0, updatedBy := p.id }] ++
          preImages c0 p.id cs)[j + 1]? = (preImages c0 p.id cs)[j]? := by
        simp
      rw [hstep, preImages_getElem? c0 p.id cs j (by omega)]
      norm_num

/-- Witness for C1: a concrete creation with content "hello" followed by one
successful save with content "world". -/
theorem C1_create_then_saves_witness :
    ∃ f, findById ⟨[⟨1, "a", "world", 5, "approved",
        [⟨"hello", 5⟩, ⟨"hello", 5⟩], 0⟩], [], []⟩ 1 = some f ∧
      f.versions.length = ["world"].length + 1 ∧
      f.versions[0]?.map Version.content = some "hello" ∧
      (∀ k, 1 ≤ k → k ≤ ["world"].length →
        f.versions[k]?.map Version.content = ("hello" :: ["world"])[k - 1]?) ∧
      f.content = ["world"].getLastD "hello" :=
  C1_create_then_saves ⟨[], [], []⟩
    ⟨[⟨1, "a", "hello", 5, "approved", [⟨"hello", 5⟩], 0⟩], [], []⟩
    ⟨[⟨1, "a", "world", 5, "approved", [⟨"hello", 5⟩, ⟨"hello", 5⟩], 0⟩], [], []⟩
    ⟨5, .editor⟩ "a" "hello" 1 ["world"]
    ⟨1, "a", "hello", 5, "approved", [⟨"hello", 5⟩], 0⟩
    (by decide) (by decide) (by decide)

/-- C2: for every existing file, an editor principal whose id differs from
the file's author gets Forbidden (403) from save, while an admin principal's
save succeeds regardless of authorship. -/
theorem C2_save_ownership (st : Store) (p : Principal) (id : Nat)
    (file : FileRec) (c : String) (name : Option String) (now : Nat)
    (hfind : findById st id = some file) :
    (p.role = .editor → p.id ≠ file.author →
      saveFile st p id c name now
        = (.error (.forbidden "You can only save your own files"), st)) ∧
    (p.role = .admin →
      ∃ f1, saveFile st p id c name now = (.ok f1, replaceFile st f1)) := by
  constructor
  · intro hrole hneq
    have hauth : authorize [.editor, .admin] p = true := by simp [authorize, hrole]
    have hown : (file.author != p.id && p.role != .admin) = true := by
      simp [hrole]
      omega
    simp [saveFile, hauth, hfind, hown]
  · intro hrole
    have hauth : authorize [.editor, .admin] p = true := by simp [authorize, hrole]
    have hown : (file.author != p.id && p.role != .admin) = false := by
      simp [hrole]
    exact ⟨{ file with
        versions := file.versions ++ [{ content := file.content, updatedBy := p.id }]
        content := c
        name := match name with
          | some n => if n == "" then file.name else n
          | none => file.name
        updatedAt := now },
      by simp [saveFile, hauth, hfind, hown]⟩

/-- Witness for C2: editor 7 is refused on a file authored by 5; admin 7
saves it successfully. -/
theorem C2_save_ownership_witness :
    (saveFile ⟨[⟨1, "a", "h", 5, "approved", [], 0⟩], [], []⟩ ⟨7, .editor⟩ 1 "x" none 0
      = (.error (.forbidden "You can only save your own files"),
         ⟨[⟨1, "a", "h", 5, "approved", [], 0⟩], [], []⟩)) ∧
    (∃ f1, saveFile ⟨[⟨1, "a", "h", 5, "approved", [], 0⟩], [], []⟩ ⟨7, .admin⟩ 1 "x" none 0
      = (.ok f1, replaceFile ⟨[⟨1, "a", "h", 5, "approved", [], 0⟩], [], []⟩ f1)) :=
  ⟨(C2_save_ownership ⟨[⟨1, "a", "h", 5, "approved", [], 0⟩], [], []⟩ ⟨7, .editor⟩ 1
      ⟨1, "a", "h", 5, "approved", [], 0⟩ "x" none 0 (by decide)).1 rfl (by decide),
   (C2_save_ownership ⟨[⟨1, "a", "h", 5, "approved", [], 0⟩], [], []⟩ ⟨7, .admin⟩ 1
      ⟨1, "a", "h", 5, "approved", [], 0⟩ "x" none 0 (by decide)).2 rfl⟩

/-- C4: for every existing file, an admin's forceUpdate succeeds with no
ownership check: it appends a snapshot of the current content (recording the
admin as updatedBy) to `versions` and then sets `content` to the new value. -/
theorem C4_admin_forceUpdate (st : Store) (p : Principal) (id : Nat)
    (file : FileRec) (c : String) (now : Nat)
    (hadmin : p.role = .admin)
    (hfind : findById st id = some file) :
    ∃ f1, forceUpdate st p id c now = (.ok f1, replaceFile st f1) ∧
      f1.versions = file.versions ++ [{ content := file.content, updatedBy := p.id }] ∧
      f1.content = c := by
  have hauth : authorize [.admin] p = true := by simp [authorize, hadmin]
  exact ⟨{ file with
      versions := file.versions ++ [{ content := file.content, updatedBy := p.id }]
      content := c
      updatedAt := now },
    by simp [forceUpdate, hauth, hfind], rfl, rfl⟩

/-- Witness for C4: admin 7 force-updates a file authored by 5. -/
theorem C4_admin_forceUpdate_witness :
    ∃ f1, forceUpdate ⟨[⟨1, "a", "h", 5, "approved", [], 0⟩], [], []⟩ ⟨7, .admin⟩ 1 "x" 3
        = (.ok f1, replaceFile ⟨[⟨1, "a", "h", 5, "approved", [], 0⟩], [], []⟩ f1) ∧
      f1.versions = [] ++ [{ content := "h", updatedBy := 7 }] ∧
      f1.content = "x" :=
  C4_admin_forceUpdate ⟨[⟨1, "a", "h", 5, "approved", [], 0⟩], [], []⟩ ⟨7, .admin⟩ 1
    ⟨1, "a", "h", 5, "approved", [], 0⟩ "x" 3 rfl (by decide)

/-- C5: listApproved never returns a file whose status differs from
"approved", and listMine returns exactly the stored files whose author is
the calling principal. -/
theorem C5_listing_scope (st : Store) (p : Principal) :
    (∀ f ∈ listApproved st, f.status = "approved") ∧
    (∀ f, f ∈ listMine st p ↔ f ∈ st.files ∧ f.author = p.id) := by
  constructor
  · intro f hf
    have h1 := (mem_sortByUpdatedAtDesc f _).mp hf
    have h2 := List.of_mem_filter h1
    simpa using h2
  · intro f
    constructor
    · intro hf
      have h1 := (mem_sortByUpdatedAtDesc f _).mp hf
      exact ⟨List.mem_of_mem_filter h1, by simpa using List.of_mem_filter h1⟩
    · rintro ⟨h1, h2⟩
      exact (mem_sortByUpdatedAtDesc f _).mpr
        (List.mem_filter.mpr ⟨h1, by simpa using h2⟩)

/-- Witness for C5: in a store holding an approved file and a draft file by
author 9 plus a file by author 5, the approved file returned by the general
listing has status "approved", and membership in listMine for principal 9
is exactly authorship by 9 (checked on the draft file). -/
theorem C5_listing_scope_witness :
    (⟨1, "a", "x", 9, "approved", [], 3⟩ : FileRec).status = "approved" ∧
    ((⟨2, "b", "y", 9, "draft", [], 5⟩ : FileRec) ∈
        listMine ⟨[⟨1, "a", "x", 9, "approved", [], 3⟩,
          ⟨2, "b", "y", 9, "draft", [], 5⟩,
          ⟨3, "c", "z", 5, "approved", [], 7⟩], [], []⟩ ⟨9, .editor⟩ ↔
      (⟨2, "b", "y", 9, "draft", [], 5⟩ : FileRec) ∈
        (⟨[⟨1, "a", "x", 9, "approved", [], 3⟩,
          ⟨2, "b", "y", 9, "draft", [], 5⟩,
          ⟨3, "c", "z", 5, "approved", [], 7⟩], [], []⟩ : Store).files ∧
      (⟨2, "b", "y", 9, "draft", [], 5⟩ : FileRec).author = 9) :=
  ⟨(C5_listing_scope ⟨[⟨1, "a", "x", 9, "approved", [], 3⟩,
      ⟨2, "b", "y", 9, "draft", [], 5⟩,
      ⟨3, "c", "z", 5, "approved", [], 7⟩], [], []⟩ ⟨9, .editor⟩).1
      ⟨1, "a", "x", 9, "approved", [], 3⟩ (by decide),
   (C5_listing_scope ⟨[⟨1, "a", "x", 9, "approved", [], 3⟩,
      ⟨2, "b", "y", 9, "draft", [], 5⟩,
      ⟨3, "c", "z", 5, "approved", [], 7⟩], [], []⟩ ⟨9, .editor⟩).2
      ⟨2, "b", "y", 9, "draft", [], 5⟩⟩

/-- C6: creation by an editor or admin yields a file with status "approved",
author equal to the creating principal, and a versions sequence of exactly
one founding entry whose content is the initial content and whose updatedBy
is the creator. -/
theorem C6_create_shape (st : Store) (p : Principal)
    (n c : String) (newId now : Nat)
    (hrole : p.role = .editor ∨ p.role = .admin) :
    ∃ f, createFile st p (some n) (some c) newId now
        = (.ok f, { st with files := st.files ++ [f] }) ∧
      f.status = "approved" ∧ f.author = p.id ∧
      f.versions = [{ content := c, updatedBy := p.id }] := by
  have hauth : authorize [.editor, .admin] p = true := by
    rcases hrole with h | h <;> simp [authorize, h]
  exact ⟨⟨newId, n, c, p.id, "approved", [{ content := c, updatedBy := p.id }], now⟩,
    by simp [createFile, hauth], rfl, rfl, rfl⟩

/-- Witness for C6: editor 5 creates a file with content "hello". -/
theorem C6_create_shape_witness :
    ∃ f, createFile ⟨[], [], []⟩ ⟨5, .editor⟩ (some "a.txt") (some "hello") 1 0
        = (.ok f, (⟨[f], [], []⟩ : Store)) ∧
      f.status = "approved" ∧ f.author = 5 ∧
      f.versions = [{ content := "hello", updatedBy := 5 }] :=
  C6_create_shape ⟨[], [], []⟩ ⟨5, .editor⟩ "a.txt" "hello" 1 0 (.inl rfl)

/-- C7: for a file id absent from the store, get, forceUpdate (by an
admin), save and delete (by an editor or admin) each fail with NotFound
(404) and leave the store unchanged. -/
theorem C7_absent_id (st : Store) (pa pe pd : Principal) (id : Nat)
    (c : String) (name : Option String) (now : Nat) (sched : DeleteSchedule)
    (hfind : findById st id = none)
    (ha : pa.role = .admin)
    (he : pe.role = .editor ∨ pe.role = .admin)
    (hd : pd.role = .editor ∨ pd.role = .admin) :
    getFile st id = (.error (.notFound "File not found"), st) ∧
    forceUpdate st pa id c now = (.error (.notFound "File not found"), st) ∧
    saveFile st pe id c name now = (.error (.notFound "File not found"), st) ∧
    deleteFile st pd id sched = (.error (.notFound "File not found"), st) := by
  have hauth1 : authorize [.admin] pa = true := by simp [authorize, ha]
  have hauth2 : authorize [.editor, .admin] pe = true := by
    rcases he with h | h <;> simp [authorize, h]
  have hauth3 : authorize [.editor, .admin] pd = true := by
    rcases hd with h | h <;> simp [authorize, h]
  refine ⟨?_, ?_, ?_, ?_⟩
  · simp [getFile, hfind]
  · simp [forceUpdate, hauth1, hfind]
  · simp [saveFile, hauth2, hfind]
  · simp [deleteFile, hauth3, hfind]

/-- Witness for C7: id 2 is absent from a one-file store. -/
theorem C7_absent_id_witness :
    getFile ⟨[⟨1, "a", "h", 5, "approved", [], 0⟩], [], []⟩ 2
      = (.error (.notFound "File not found"),
         ⟨[⟨1, "a", "h", 5, "approved", [], 0⟩], [], []⟩) ∧
    forceUpdate ⟨[⟨1, "a", "h", 5, "approved", [], 0⟩], [], []⟩ ⟨7, .admin⟩ 2 "x" 1
      = (.error (.notFound "File not found"),
         ⟨[⟨1, "a", "h", 5, "approved", [], 0⟩], [], []⟩) ∧
    saveFile ⟨[⟨1, "a", "h", 5, "approved", [], 0⟩], [], []⟩ ⟨5, .editor⟩ 2 "x" none 1
      = (.error (.notFound "File not found"),
         ⟨[⟨1, "a", "h", 5, "approved", [], 0⟩], [], []⟩) ∧
    deleteFile ⟨[⟨1, "a", "h", 5, "approved", [], 0⟩], [], []⟩ ⟨5, .editor⟩ 2 ⟨true, true, true⟩
      = (.error (.notFound "File not found"),
         ⟨[⟨1, "a", "h", 5, "approved", [], 0⟩], [], []⟩) :=
  C7_absent_id ⟨[⟨1, "a", "h", 5, "approved", [], 0⟩], [], []⟩
    ⟨7, .admin⟩ ⟨5, .editor⟩ ⟨5, .editor⟩ 2 "x" none 1 ⟨true, true, true⟩
    (by decide) rfl (.inl rfl) (.inl rfl)

/-- C8 counterexample: an editor's create request with the content field
missing fails with the generic 500 store error ("Failed to create file"),
not with a typed ValidationError. -/
theorem C8_counterexample :
    (createFile ⟨[], [], []⟩ ⟨5, .editor⟩ (some "a.txt") none 1 0).1
        = .error (.storeError "Failed to create file") ∧
    ∀ m, (createFile ⟨[], [], []⟩ ⟨5, .editor⟩ (some "a.txt") none 1 0).1
        ≠ .error (.validationError m) := by
  constructor
  · rfl
  · intro m h
    simp [createFile, authorize] at h

/-- C8 (amended): a create request missing the name or the content field
fails, but with the route's generic store error (HTTP 500,
"Failed to create file") rather than a typed ValidationError, and no file
is persisted (the store is unchanged). -/
theorem C8_create_missing_fields (st : Store) (p : Principal)
    (name content : Option String) (newId now : Nat)
    (hrole : p.role = .editor ∨ p.role = .admin)
    (hmiss : name = none ∨ content = none) :
    createFile st p name content newId now
      = (.error (.storeError "Failed to create file"), st) := by
  have hauth : authorize [.editor, .admin] p = true := by
    rcases hrole with h | h <;> simp [authorize, h]
  rcases hmiss with h | h <;> subst h
  · cases content <;> simp [createFile, hauth]
  · cases name <;> simp [createFile, hauth]

/-- Witness for C8 (amended): editor 5 creating with a name but no content
gets the generic 500 reply and the empty store stays empty. -/
theorem C8_create_missing_fields_witness :
    createFile ⟨[], [], []⟩ ⟨5, .editor⟩ (some "a.txt") none 1 0
      = (.error (.storeError "Failed to create file"), ⟨[], [], []⟩) :=
  C8_create_missing_fields ⟨[], [], []⟩ ⟨5, .editor⟩ (some "a.txt") none 1 0
    (.inl rfl) (.inr rfl)

/-- C3: after a successful delete no Edit or Notification referencing the
id remains; and when the dependent-record cleanup fails, the delete
operation fails and the File with that id still exists (the File record is
only removed after both cleanups succeed). -/
theorem C3_delete_cascade (st : Store) (p : Principal) (id : Nat)
    (file : FileRec) (sched : DeleteSchedule)
    (hfind : findById st id = some file) :
    (∀ msg st2, deleteFile st p id sched = (.ok msg, st2) →
      (∀ e ∈ st2.edits, e.file ≠ id) ∧ (∀ nt ∈ st2.notifs, nt.fileId ≠ id)) ∧
    (sched.editCleanupOk = false ∨ sched.notifCleanupOk = false →
      (∀ msg, (deleteFile st p id sched).1 ≠ .ok msg) ∧
      findById (deleteFile st p id sched).2 id = some file) := by
  by_cases hauth : authorize [.editor, .admin] p = true
  · by_cases hedit : sched.editCleanupOk = true
    · by_cases hnotif : sched.notifCleanupOk = true
      · have hcl : (sched.editCleanupOk && sched.notifCleanupOk) = true := by
          simp [hedit, hnotif]
        by_cases hdel : sched.fileDeleteOk = true
        · have hrun : deleteFile st p id sched =
              (.ok "File deleted successfully",
                { st with
                  files := st.files.filter (fun f => f.id != id)
                  edits := st.edits.filter (fun e => e.file != id)
                  notifs := st.notifs.filter (fun nt => nt.fileId != id) }) := by
            simp [deleteFile, hauth, hfind, hedit, hnotif, hcl, hdel]
          refine ⟨?_, ?_⟩
          · intro msg st2 h
            rw [hrun] at h
            obtain ⟨h1, h2⟩ := Prod.ext_iff.mp h
            subst h2
            constructor
            · intro e he
              have := List.of_mem_filter he
              simpa using this
            · intro nt hnt
              have := List.of_mem_filter hnt
              simpa using this
          · intro hfail
            rcases hfail with h | h
            · simp [h] at hedit
            · simp [h] at hnotif
        · have hrun : deleteFile st p id sched =
              (.error (.storeError "Failed to delete file"),
                { st with
                  edits := st.edits.filter (fun e => e.file != id)
                  notifs := st.notifs.filter (fun nt => nt.fileId != id) }) := by
            simp [deleteFile, hauth, hfind, hedit, hnotif, hcl, hdel]
          refine ⟨?_, ?_⟩
          · intro msg st2 h
            rw [hrun] at h
            simp at h
          · intro hfail
            rcases hfail with h | h
            · simp [h] at hedit
            · simp [h] at hnotif
      · have hcl : (sched.editCleanupOk && sched.notifCleanupOk) = false := by
          simp; intro _; simpa using hnotif
        have hrun : deleteFile st p id sched =
            (.error (.storeError "Failed to delete file"),
              { st with
                edits := if sched.editCleanupOk
                  then st.edits.filter (fun e => e.file != id) else st.edits
                notifs := if sched.notifCleanupOk
                  then st.notifs.filter (fun nt => nt.fileId != id) else st.notifs }) := by
          simp [deleteFile, hauth, hfind, hcl]
        refine ⟨?_, ?_⟩
        · intro msg st2 h
          rw [hrun] at h
          simp at h
        · intro _
          rw [hrun]
          exact ⟨fun msg h => by simp at h, hfind⟩
    · have hcl : (sched.editCleanupOk && sched.notifCleanupOk) = false := by
        simp; intro h; simp [h] at hedit
      have hrun : deleteFile st p id sched =
          (.error (.storeError "Failed to delete file"),
            { st with
              edits := if sched.editCleanupOk
                then st.edits.filter (fun e => e.file != id) else st.edits
              notifs := if sched.notifCleanupOk
                then st.notifs.filter (fun nt => nt.fileId != id) else st.notifs }) := by
        simp [deleteFile, hauth, hfind, hcl]
      refine ⟨?_, ?_⟩
      · intro msg st2 h
        rw [hrun] at h
        simp at h
      · intro _
        rw [hrun]
        exact ⟨fun msg h => by simp at h, hfind⟩
  · have hrun : deleteFile st p id sched = (.error (.forbidden "Access denied"), st) := by
      simp [deleteFile, hauth]
    refine ⟨?_, ?_⟩
    · intro msg st2 h
      rw [hrun] at h
      simp at h
    · intro _
      rw [hrun]
      exact ⟨fun msg h => by simp at h, hfind⟩

/-- Witness for C3: deleting file 1 by editor 5 with a failing Edit
cleanup (and with a fully successful run for the first conjunct). -/
theorem C3_delete_cascade_witness :
    (∀ msg st2, deleteFile ⟨[⟨1, "a", "h", 5, "approved", [], 0⟩],
        [⟨1, 1⟩, ⟨2, 2⟩], [⟨1, 1⟩]⟩ ⟨5, .editor⟩ 1 ⟨false, true, true⟩ = (.ok msg, st2) →
      (∀ e ∈ st2.edits, e.file ≠ 1) ∧ (∀ nt ∈ st2.notifs, nt.fileId ≠ 1)) ∧
    ((false = false ∨ true = false) →
      (∀ msg, (deleteFile ⟨[⟨1, "a", "h", 5, "approved", [], 0⟩],
        [⟨1, 1⟩, ⟨2, 2⟩], [⟨1, 1⟩]⟩ ⟨5, .editor⟩ 1 ⟨false, true, true⟩).1 ≠ .ok msg) ∧
      findById (deleteFile ⟨[⟨1, "a", "h", 5, "approved", [], 0⟩],
        [⟨1, 1⟩, ⟨2, 2⟩], [⟨1, 1⟩]⟩ ⟨5, .editor⟩ 1 ⟨false, true, true⟩).2 1
        = some ⟨1, "a", "h", 5, "approved", [], 0⟩) :=
  C3_delete_cascade ⟨[⟨1, "a", "h", 5, "approved", [], 0⟩],
    [⟨1, 1⟩, ⟨2, 2⟩], [⟨1, 1⟩]⟩ ⟨5, .editor⟩ 1
    ⟨1, "a", "h", 5, "approved", [], 0⟩ ⟨false, true, true⟩ (by decide)

/-- C10: when both dependent cleanups succeed but the removal of the File
record itself fails, the route reports a store error, the File still
exists, and the Edit and Notification records referencing the id are
already gone — the cleanup is not rolled back. -/
theorem C10_cleanup_not_rolled_back (st : Store) (p : Principal) (id : Nat)
    (file : FileRec)
    (hrole : p.role = .editor ∨ p.role = .admin)
    (hfind : findById st id = some file) :
    deleteFile st p id ⟨true, true, false⟩
      = (.error (.storeError "Failed to delete file"),
         { st with
           edits := st.edits.filter (fun e => e.file != id)
           notifs := st.notifs.filter (fun nt => nt.fileId != id) }) ∧
    findById (deleteFile st p id ⟨true, true, false⟩).2 id = some file := by
  have hauth : authorize [.editor, .admin] p = true := by
    rcases hrole with h | h <;> simp [authorize, h]
  have hrun : deleteFile st p id ⟨true, true, false⟩
      = (.error (.storeError "Failed to delete file"),
         { st with
           edits := st.edits.filter (fun e => e.file != id)
           notifs := st.notifs.filter (fun nt => nt.fileId != id) }) := by
    simp [deleteFile, hauth, hfind]
  exact ⟨hrun, by rw [hrun]; exact hfind⟩

/-- Witness for C10: editor 5 deletes file 1; both cleanups succeed, the
file removal fails. -/
theorem C10_cleanup_not_rolled_back_witness :
    deleteFile ⟨[⟨1, "a", "h", 5, "approved", [], 0⟩],
        [⟨1, 1⟩, ⟨2, 2⟩], [⟨1, 1⟩]⟩ ⟨5, .editor⟩ 1 ⟨true, true, false⟩
      = (.error (.storeError "Failed to delete file"),
         { (⟨[⟨1, "a", "h", 5, "approved", [], 0⟩],
            [⟨1, 1⟩, ⟨2, 2⟩], [⟨1, 1⟩]⟩ : Store) with
           edits := List.filter (fun e => e.file != 1) [⟨1, 1⟩, ⟨2, 2⟩]
           notifs := List.filter (fun nt => nt.fileId != 1) [⟨1, 1⟩] }) ∧
    findById (deleteFile ⟨[⟨1, "a", "h", 5, "approved", [], 0⟩],
        [⟨1, 1⟩, ⟨2, 2⟩], [⟨1, 1⟩]⟩ ⟨5, .editor⟩ 1 ⟨true, true, false⟩).2 1
      = some ⟨1, "a", "h", 5, "approved", [], 0⟩ :=
  C10_cleanup_not_rolled_back ⟨[⟨1, "a", "h", 5, "approved", [], 0⟩],
    [⟨1, 1⟩, ⟨2, 2⟩], [⟨1, 1⟩]⟩ ⟨5, .editor⟩ 1
    ⟨1, "a", "h", 5, "approved", [], 0⟩ (.inl rfl) (by decide)

theorem getFile_state (st : Store) (id : Nat) : (getFile st id).2 = st := by
  rcases h : findById st id with _ | f <;> simp [getFile, h]

theorem versions_grow_refl (f f1 : FileRec) (h : some f = some f1) :
    ∃ t, f1.versions = f.versions ++ t := by
  obtain rfl := Option.some.inj h
  exact ⟨[], by simp⟩

theorem versions_grow_replace (st : Store) (tid : Nat) (file0 fN : FileRec)
    (hfound : findById st tid = some file0) (hfid : fN.id = file0.id)
    (hgrow : ∃ t, fN.versions = file0.versions ++ t)
    (id : Nat) (f f1 : FileRec)
    (hbefore : findById st id = some f)
    (hafter : findById (replaceFile st fN) id = some f1) :
    ∃ t, f1.versions = f.versions ++ t := by
  rw [findById_replaceFile st tid file0 fN hfound hfid id] at hafter
  by_cases hid : id = tid
  · rw [if_pos hid] at hafter
    have h1 : fN = f1 := Option.some.inj hafter
    rw [hid, hfound] at hbefore
    have h2 : file0 = f := Option.some.inj hbefore
    rw [← h1, ← h2]
    exact hgrow
  · rw [if_neg hid, hbefore] at hafter
    exact versions_grow_refl f f1 hafter

/-- C9: no operation ever removes, truncates, or reorders the entries of a
surviving file's `versions` sequence — whenever a file id resolves both
before and after an operation, the old ledger is a prefix of the new one
(it only grows by appending). -/
theorem C9_ledger_only_grows (st : Store) (op : Op) (id : Nat) (f f1 : FileRec)
    (hbefore : findById st id = some f)
    (hafter : findById (applyOp st op) id = some f1) :
    ∃ t, f1.versions = f.versions ++ t := by
  cases op with
  | create p name content newId now =>
    have ha : findById (createFile st p name content newId now).2 id = some f1 := hafter
    rcases createFile_anatomy st p name content newId now with
      ⟨e, he⟩ | ⟨n, c, hn, hc, heq⟩
    · have hsnd : (createFile st p name content newId now).2 = st := by rw [he]
      rw [hsnd, hbefore] at ha
      exact versions_grow_refl f f1 ha
    · have hsnd : (createFile st p name content newId now).2
          = { st with files := st.files ++
              [{ id := newId, name := n, content := c, author := p.id,
                 status := "approved",
                 versions := [{ content := c, updatedBy := p.id }],
                 updatedAt := now }] } := by rw [heq]
      rw [hsnd, findById_append, hbefore] at ha
      simp only [Option.or] at ha
      exact versions_grow_refl f f1 ha
  | force p tid c now =>
    have ha : findById (forceUpdate st p tid c now).2 id = some f1 := hafter
    rcases forceUpdate_anatomy st p tid c now with
      ⟨e, he⟩ | ⟨file0, fN, hf0, hshape, heq⟩
    · have hsnd : (forceUpdate st p tid c now).2 = st := by rw [he]
      rw [hsnd, hbefore] at ha
      exact versions_grow_refl f f1 ha
    · have hsnd : (forceUpdate st p tid c now).2 = replaceFile st fN := by rw [heq]
      rw [hsnd] at ha
      exact versions_grow_replace st tid file0 fN hf0 (by rw [hshape])
        ⟨[{ content := file0.content, updatedBy := p.id }], by rw [hshape]⟩
        id f f1 hbefore ha
  | save p tid c name now =>
    have ha : findById (saveFile st p tid c name now).2 id = some f1 := hafter
    rcases saveFile_anatomy st p tid c name now with
      ⟨e, he⟩ | ⟨file0, fN, hf0, hshape, heq⟩
    · have hsnd : (saveFile st p tid c name now).2 = st := by rw [he]
      rw [hsnd, hbefore] at ha
      exact versions_grow_refl f f1 ha
    · have hsnd : (saveFile st p tid c name now).2 = replaceFile st fN := by rw [heq]
      rw [hsnd] at ha
      exact versions_grow_replace st tid file0 fN hf0 (by rw [hshape])
        ⟨[{ content := file0.content, updatedBy := p.id }], by rw [hshape]⟩
        id f f1 hbefore ha
  | getOne tid =>
    have ha : findById (getFile st tid).2 id = some f1 := hafter
    rw [getFile_state, hbefore] at ha
    exact versions_grow_refl f f1 ha
  | listAll =>
    have ha : findById st id = some f1 := hafter
    rw [hbefore] at ha
    exact versions_grow_refl f f1 ha
  | listMy p =>
    have ha : findById st id = some f1 := hafter
    rw [hbefore] at ha
    exact versions_grow_refl f f1 ha
  | del p tid sched =>
    have ha : (deleteFile st p tid sched).2.files.find? (fun g => g.id == id)
        = some f1 := hafter
    rcases deleteFile_files st p tid sched with hfl | hfl
    · rw [hfl] at ha
      have ha2 : findById st id = some f1 := ha
      rw [hbefore] at ha2
      exact versions_grow_refl f f1 ha2
    · rw [hfl] at ha
      by_cases hid : id = tid
      · rw [hid, find?_filter_self] at ha
        simp at ha
      · rw [find?_filter_ne st.files tid id hid] at ha
        have ha2 : findById st id = some f1 := ha
        rw [hbefore] at ha2
        exact versions_grow_refl f f1 ha2

/-- Witness for C9: a save on file 1 appends one ledger entry; the old
ledger is a prefix of the new one. -/
theorem C9_ledger_only_grows_witness :
    ∃ t, (⟨1, "a", "y", 5, "approved",
        [⟨"h0", 5⟩, ⟨"x", 5⟩], 2⟩ : FileRec).versions
      = (⟨1, "a", "x", 5, "approved", [⟨"h0", 5⟩], 0⟩ : FileRec).versions ++ t :=
  C9_ledger_only_grows ⟨[⟨1, "a", "x", 5, "approved", [⟨"h0", 5⟩], 0⟩], [], []⟩
    (.save ⟨5, .editor⟩ 1 "y" none 2) 1
    ⟨1, "a", "x", 5, "approved", [⟨"h0", 5⟩], 0⟩
    ⟨1, "a", "y", 5, "approved", [⟨"h0", 5⟩, ⟨"x", 5⟩], 2⟩
    (by decide) (by decide)
